import Mathlib

/-!
Shallow embedding of the nostr-relay extension models (src/models.py):
canonical event serialization and identity hash (NostrEvent.serialize_json,
NostrEvent.event_id), signature checking (NostrEvent.check_signature),
filter live matching (NostrFilter.matches, NostrFilter.tag_in_list),
emptiness (NostrFilter.is_empty), limit clamping (NostrFilter.enforce_limit),
query compilation (NostrFilter.to_sql_components) and author authorization
(ClientConfig.is_author_allowed).

Machine words are Nat reduced mod 2^32 where overflow matters; Python
exceptions are modelled with Option/Except.
-/

/-- Lowercase hexadecimal digits, as produced by hex formatting in Python. -/
def hexDigits : List Char := "0123456789abcdef".data

/-- The lowercase hex digit for a nibble. -/
def hexDigitChar (n : Nat) : Char := hexDigits.getD n '0'

/-- The two lowercase hex characters of one byte (big nibble first). -/
def byteHexChars (b : Nat) : List Char :=
  [hexDigitChar (b / 16 % 16), hexDigitChar (b % 16)]

/-- Concatenation of the images of a list-valued map. -/
def concatMapL (f : α → List β) : List α → List β
  | [] => []
  | x :: xs => f x ++ concatMapL f xs

/-- Lowercase hex string of a byte list, as Python hexdigest renders it. -/
def bytesToHex (bs : List Nat) : String := String.mk (concatMapL byteHexChars bs)

/-- UTF-8 encoding of one unicode code point, as Python str.encode emits it. -/
def utf8EncodeCharBytes (c : Char) : List Nat :=
  let n := c.toNat
  if n < 128 then [n]
  else if n < 2048 then [192 + n / 64, 128 + n % 64]
  else if n < 65536 then [224 + n / 4096, 128 + n / 64 % 64, 128 + n % 64]
  else [240 + n / 262144, 128 + n / 4096 % 64, 128 + n / 64 % 64, 128 + n % 64]

/-- UTF-8 bytes of a string (Python data.encode()). -/
def utf8Bytes (s : String) : List Nat := concatMapL utf8EncodeCharBytes s.data

/-- JSON escaping of one character as json.dumps with ensure_ascii=False does:
only backslash, double quote and control characters below 0x20 are escaped;
everything else, non-ASCII included, is passed through literally. -/
def jsonEscapeChar (c : Char) : List Char :=
  if c = '\\' then ['\\', '\\']
  else if c = '"' then ['\\', '"']
  else if c.toNat = 8 then ['\\', 'b']
  else if c.toNat = 9 then ['\\', 't']
  else if c.toNat = 10 then ['\\', 'n']
  else if c.toNat = 12 then ['\\', 'f']
  else if c.toNat = 13 then ['\\', 'r']
  else if c.toNat < 32 then
    ['\\', 'u', '0', '0', hexDigitChar (c.toNat / 16), hexDigitChar (c.toNat % 16)]
  else [c]

/-- JSON rendering of a string value (quoted, escaped). -/
def jsonString (s : String) : String :=
  "\"" ++ String.mk (concatMapL jsonEscapeChar s.data) ++ "\""

/-- JSON rendering of one tag entry (a list of strings), compact separators. -/
def jsonStringList (t : List String) : String :=
  "[" ++ String.intercalate "," (t.map jsonString) ++ "]"

/-- JSON rendering of the tags array, compact separators. -/
def jsonTags (tags : List (List String)) : String :=
  "[" ++ String.intercalate "," (tags.map jsonStringList) ++ "]"

/-! ## SHA-256 over byte lists, words as Nat mod 2^32 -/

/-- Reduce to a 32-bit word. -/
def w32 (n : Nat) : Nat := n % 4294967296

/-- Right rotation of a 32-bit word by n bits. -/
def rotr (n x : Nat) : Nat := w32 (x / 2 ^ n + x % 2 ^ n * 2 ^ (32 - n))

/-- Logical right shift. -/
def shr (n x : Nat) : Nat := x / 2 ^ n

def bigSigma0 (x : Nat) : Nat := rotr 2 x ^^^ rotr 13 x ^^^ rotr 22 x

def bigSigma1 (x : Nat) : Nat := rotr 6 x ^^^ rotr 11 x ^^^ rotr 25 x

def smallSigma0 (x : Nat) : Nat := rotr 7 x ^^^ rotr 18 x ^^^ shr 3 x

def smallSigma1 (x : Nat) : Nat := rotr 17 x ^^^ rotr 19 x ^^^ shr 10 x

def shaCh (x y z : Nat) : Nat := x &&& y ^^^ ((x ^^^ 4294967295) &&& z)

def shaMaj (x y z : Nat) : Nat := x &&& y ^^^ (x &&& z) ^^^ (y &&& z)

/-- The 64 SHA-256 round constants. -/
def shaK : List Nat :=
  [1116352408, 1899447441, 3049323471, 3921009573, 961987163, 1508970993,
   2453635748, 2870763221, 3624381080, 310598401, 607225278, 1426881987,
   1925078388, 2162078206, 2614888103, 3248222580, 3835390401, 4022224774,
   264347078, 604807628, 770255983, 1249150122, 1555081692, 1996064986,
   2554220882, 2821834349, 2952996808, 3210313671, 3336571891, 3584528711,
   113926993, 338241895, 666307205, 773529912, 1294757372, 1396182291,
   1695183700, 1986661051, 2177026350, 2456956037, 2730485921, 2820302411,
   3259730800, 3345764771, 3516065817, 3600352804, 4094571909, 275423344,
   430227734, 506948616, 659060556, 883997877, 958139571, 1322822218,
   1537002063, 1747873779, 1955562222, 2024104815, 2227730452, 2361852424,
   2428436474, 2756734187, 3204031479, 3329325298]

/-- The eight 32-bit chaining words of a SHA-256 state. -/
structure Hash8 where
  h0 : Nat
  h1 : Nat
  h2 : Nat
  h3 : Nat
  h4 : Nat
  h5 : Nat
  h6 : Nat
  h7 : Nat

/-- SHA-256 initial hash value. -/
def shaInit : Hash8 :=
  ⟨1779033703, 3144134277, 1013904242, 2773480762,
   1359893119, 2600822924, 528734635, 1541459225⟩

/-- Big-endian 8-byte rendering of the bit length, for the padding tail. -/
def lenBytes8 (bitLen : Nat) : List Nat :=
  [bitLen / 2 ^ 56 % 256, bitLen / 2 ^ 48 % 256, bitLen / 2 ^ 40 % 256,
   bitLen / 2 ^ 32 % 256, bitLen / 2 ^ 24 % 256, bitLen / 2 ^ 16 % 256,
   bitLen / 2 ^ 8 % 256, bitLen % 256]

/-- SHA-256 padding: 0x80, zeros to 56 mod 64, then the 64-bit bit length. -/
def padMessage (msg : List Nat) : List Nat :=
  let len := msg.length
  let zeros := (64 - (len + 9) % 64) % 64
  msg ++ [128] ++ List.replicate zeros 0 ++ lenBytes8 (8 * len)

/-- Split a byte list into 64-byte blocks. -/
def toBlocks (bs : List Nat) : List (List Nat) :=
  if hbs : bs = [] then []
  else
    have : bs.length - 64 < bs.length := by
      have : 0 < bs.length := List.length_pos.mpr hbs
      omega
    bs.take 64 :: toBlocks (bs.drop 64)
termination_by bs.length
decreasing_by
  simpa [List.length_drop] using this

/-- The 16 big-endian message words of one 64-byte block. -/
def blockWords (block : List Nat) : List Nat :=
  (List.range 16).map fun i =>
    w32 (block.getD (4 * i) 0 * 2 ^ 24 + block.getD (4 * i + 1) 0 * 2 ^ 16 +
         block.getD (4 * i + 2) 0 * 2 ^ 8 + block.getD (4 * i + 3) 0)

/-- Extend 16 message words to the 64-entry message schedule. -/
def extendWords (ws : List Nat) : List Nat :=
  (List.range 48).foldl
    (fun acc _ =>
      let n := acc.length
      acc ++ [w32 (smallSigma1 (acc.getD (n - 2) 0) + acc.getD (n - 7) 0 +
                   smallSigma0 (acc.getD (n - 15) 0) + acc.getD (n - 16) 0)])
    ws

/-- One SHA-256 compression round on the working variables. -/
def shaRound (st : Hash8) (kw : Nat × Nat) : Hash8 :=
  let t1 := w32 (st.h7 + bigSigma1 st.h4 + shaCh st.h4 st.h5 st.h6 + kw.1 + kw.2)
  let t2 := w32 (bigSigma0 st.h0 + shaMaj st.h0 st.h1 st.h2)
  ⟨w32 (t1 + t2), st.h0, st.h1, st.h2, w32 (st.h3 + t1), st.h4, st.h5, st.h6⟩

/-- Compress one 64-byte block into the chaining state. -/
def processBlock (st : Hash8) (block : List Nat) : Hash8 :=
  let ws := extendWords (blockWords block)
  let f := (shaK.zip ws).foldl shaRound st
  ⟨w32 (st.h0 + f.h0), w32 (st.h1 + f.h1), w32 (st.h2 + f.h2), w32 (st.h3 + f.h3),
   w32 (st.h4 + f.h4), w32 (st.h5 + f.h5), w32 (st.h6 + f.h6), w32 (st.h7 + f.h7)⟩

/-- Big-endian bytes of one 32-bit word. -/
def wordBytes (w : Nat) : List Nat :=
  [w / 2 ^ 24 % 256, w / 2 ^ 16 % 256, w / 2 ^ 8 % 256, w % 256]

/-- The 32 digest bytes of a final state. -/
def digestBytes (st : Hash8) : List Nat :=
  wordBytes st.h0 ++ wordBytes st.h1 ++ wordBytes st.h2 ++ wordBytes st.h3 ++
  wordBytes st.h4 ++ wordBytes st.h5 ++ wordBytes st.h6 ++ wordBytes st.h7

/-- SHA-256 of a byte list (hashlib.sha256(...).digest()). -/
def sha256 (msg : List Nat) : List Nat :=
  digestBytes ((toBlocks (padMessage msg)).foldl processBlock shaInit)

/-- hashlib.sha256(...).hexdigest(): lowercase hex of the 32 digest bytes. -/
def sha256Hex (msg : List Nat) : String := bytesToHex (sha256 msg)

/-! ## The event model (src/models.py, class NostrEvent) -/

/-- NostrEvent: id, pubkey, created_at, kind, tags, content, sig. -/
structure NostrEvent where
  id : String
  pubkey : String
  created_at : Int
  kind : Int
  tags : List (List String) := []
  content : String := ""
  sig : String

/-- NostrEvent.serialize_json: json.dumps of [0, pubkey, created_at, kind,
tags, content] with separators (",", ":") and ensure_ascii=False. -/
def serialize_json (ev : NostrEvent) : String :=
  "[" ++ String.intercalate ","
    ["0", jsonString ev.pubkey, toString ev.created_at, toString ev.kind,
     jsonTags ev.tags, jsonString ev.content] ++ "]"

/-- NostrEvent.event_id: sha256 hexdigest of the UTF-8 serialized event. -/
def event_id (ev : NostrEvent) : String := sha256Hex (utf8Bytes (serialize_json ev))

/-- The errors NostrEvent.check_signature can raise (all ValueError in the
source; fromHex stands for the uncaught ValueError of bytes.fromhex). -/
inductive EventError where
  | invalidId
  | invalidPubkey
  | fromHex
  | invalidSignature
deriving DecidableEq, Repr

/-- Value of one hex character, upper or lower case (bytes.fromhex). -/
def hexVal? (c : Char) : Option Nat :=
  if '0' ≤ c ∧ c ≤ '9' then some (c.toNat - 48)
  else if 'a' ≤ c ∧ c ≤ 'f' then some (c.toNat - 87)
  else if 'A' ≤ c ∧ c ≤ 'F' then some (c.toNat - 55)
  else none

/-- bytes.fromhex on a character list: spaces between byte pairs are skipped,
each byte is two hex digits, anything else is a ValueError (none). -/
def fromHexAux : List Char → Option (List Nat)
  | [] => some []
  | c :: rest =>
    if c = ' ' then fromHexAux rest
    else
      match rest with
      | [] => none
      | c2 :: rest2 =>
        match hexVal? c, hexVal? c2 with
        | some hi, some lo =>
          match fromHexAux rest2 with
          | none => none
          | some bs => some ((16 * hi + lo) :: bs)
        | _, _ => none

/-- bytes.fromhex(s), ValueError modelled as none. -/
def bytes_fromhex (s : String) : Option (List Nat) := fromHexAux s.data

/-- NostrEvent.check_signature. The secp256k1 library primitives are not part
of this repository, so they are parameters: parsePubKey stands for
PublicKey(bytes.fromhex("02" + pubkey), True) (failure caught and re-raised
as the invalid-public-key error) and schnorrVerify for pub_key.schnorr_verify
on the id bytes and signature bytes. The id comparison comes first, then the
pubkey parse, then the two fromhex calls, then the schnorr check. -/
def check_signature {PK : Type} (parsePubKey : String → Option PK)
    (schnorrVerify : PK → List Nat → List Nat → Bool) (ev : NostrEvent) :
    Except EventError Unit :=
  let eid := event_id ev
  if ev.id ≠ eid then .error .invalidId
  else
    match parsePubKey ("02" ++ ev.pubkey) with
    | none => .error .invalidPubkey
    | some pk =>
      match bytes_fromhex eid with
      | none => .error .fromHex
      | some msg =>
        match bytes_fromhex ev.sig with
        | none => .error .fromHex
        | some sigBytes =>
          if schnorrVerify pk msg sigBytes then .ok () else .error .invalidSignature

/-! ## The filter model (src/models.py, class NostrFilter) -/

/-- NostrFilter: pydantic model; #e and #p are aliases of fields e and p. -/
structure NostrFilter where
  subscription_id : Option String := none
  ids : List String := []
  authors : List String := []
  kinds : List Int := []
  e : List String := []
  p : List String := []
  since : Option Int := none
  «until» : Option Int := none
  limit : Option Int := none

/-- Python truthiness of an optional integer field: None and 0 are falsy. -/
def optTruthy : Option Int → Bool
  | none => false
  | some n => n ≠ 0

/-- The tag-value list of the filter for a tag name
(dict(self).get(tag_name, []) for the names the code queries, "e" and "p"). -/
def filterTagsFor (f : NostrFilter) (tag_name : String) : List String :=
  if tag_name = "e" then f.e else if tag_name = "p" then f.p else []

/-- The comprehension [t[1] for t in event_tags if t[0] == tag_name]: indexing
t[0] or t[1] out of bounds is an IndexError, modelled as none. -/
def event_tag_values : List (List String) → String → Option (List String)
  | [], _ => some []
  | t :: rest, tag_name =>
    match t[0]? with
    | none => none
    | some h =>
      if h = tag_name then
        match t[1]? with
        | none => none
        | some v =>
          match event_tag_values rest tag_name with
          | none => none
          | some vs => some (v :: vs)
      else event_tag_values rest tag_name

/-- NostrFilter.tag_in_list; none models an uncaught IndexError. -/
def tag_in_list (f : NostrFilter) (event_tags : List (List String))
    (tag_name : String) : Option Bool :=
  let filter_tags := filterTagsFor f tag_name
  if filter_tags.length = 0 then some true
  else
    match event_tag_values event_tags tag_name with
    | none => none
    | some vals =>
      let common_tags := vals.filter fun v => decide (v ∈ filter_tags)
      if common_tags.length = 0 then some false else some true

/-- NostrFilter.matches; none models an uncaught IndexError from the tag
comprehension. The source computes found_e_tag and then found_p_tag before
testing either, which this chain of matches mirrors. -/
def «matches» (f : NostrFilter) (ev : NostrEvent) : Option Bool :=
  if f.ids.length ≠ 0 ∧ ev.id ∉ f.ids then some false
  else if f.authors.length ≠ 0 ∧ ev.pubkey ∉ f.authors then some false
  else if f.kinds.length ≠ 0 ∧ ev.kind ∉ f.kinds then some false
  else if optTruthy f.since = true ∧ ev.created_at < f.since.getD 0 then some false
  else if optTruthy f.«until» = true ∧ 0 < f.«until».getD 0 ∧ f.«until».getD 0 < ev.created_at then
    some false
  else
    match tag_in_list f ev.tags "e" with
    | none => none
    | some found_e_tag =>
      match tag_in_list f ev.tags "p" with
      | none => none
      | some found_p_tag =>
        if found_e_tag = false ∨ found_p_tag = false then some false else some true

/-- NostrFilter.is_empty: the nine-field model tests only ids, authors,
kinds, e, p and the truthiness of since and until. -/
def is_empty (f : NostrFilter) : Bool :=
  f.ids.length == 0 && f.authors.length == 0 && f.kinds.length == 0 &&
  f.e.length == 0 && f.p.length == 0 && !(optTruthy f.since) && !(optTruthy f.«until»)

/-- NostrFilter.enforce_limit: `if not self.limit or self.limit > limit:
self.limit = limit` (the state update returned functionally). -/
def enforce_limit (f : NostrFilter) (limit : Int) : NostrFilter :=
  if optTruthy f.limit = false ∨ f.limit.getD 0 > limit then
    { f with limit := some limit }
  else f

/-- A bound SQL parameter: the filter fields hold strings and integers. -/
inductive SqlVal where
  | str : String → SqlVal
  | int : Int → SqlVal
deriving DecidableEq, Repr

/-- ",".join(["?"] * n). -/
def qmarks : Nat → String
  | 0 => ""
  | 1 => "?"
  | n + 2 => qmarks (n + 1) ++ ",?"

/-- NostrFilter.to_sql_components: the source builds the three lists by
successive appends guarded by the same conditions in this same order, so the
final lists are these ordered concatenations of segments. Apostrophes in the
source SQL text are written \x27. -/
def to_sql_components (f : NostrFilter) (relay_id : String) :
    List String × List String × List SqlVal :=
  let inner_joins :=
    (if f.e.length ≠ 0 then
      ["INNER JOIN nostrrelay.event_tags e_tags ON nostrrelay.events.id = e_tags.event_id"]
     else []) ++
    (if f.p.length ≠ 0 then
      ["INNER JOIN nostrrelay.event_tags p_tags ON nostrrelay.events.id = p_tags.event_id"]
     else [])
  let whr :=
    ["deleted=false", "nostrrelay.events.relay_id = ?"] ++
    (if f.e.length ≠ 0 then
      [" (e_tags.value in (" ++ qmarks f.e.length ++ ") AND e_tags.name = \x27e\x27)"]
     else []) ++
    (if f.p.length ≠ 0 then
      [" p_tags.value in (" ++ qmarks f.p.length ++ ") AND p_tags.name = \x27p\x27"]
     else []) ++
    (if f.ids.length ≠ 0 then ["id IN (" ++ qmarks f.ids.length ++ ")"] else []) ++
    (if f.authors.length ≠ 0 then ["pubkey IN (" ++ qmarks f.authors.length ++ ")"] else []) ++
    (if f.kinds.length ≠ 0 then ["kind IN (" ++ qmarks f.kinds.length ++ ")"] else []) ++
    (if optTruthy f.since then ["created_at >= ?"] else []) ++
    (if optTruthy f.«until» then ["created_at < ?"] else [])
  let values :=
    [SqlVal.str relay_id] ++
    (if f.e.length ≠ 0 then f.e.map SqlVal.str else []) ++
    (if f.p.length ≠ 0 then f.p.map SqlVal.str else []) ++
    (if f.ids.length ≠ 0 then f.ids.map SqlVal.str else []) ++
    (if f.authors.length ≠ 0 then f.authors.map SqlVal.str else []) ++
    (if f.kinds.length ≠ 0 then f.kinds.map SqlVal.int else []) ++
    (if optTruthy f.since then [SqlVal.int (f.since.getD 0)] else []) ++
    (if optTruthy f.«until» then [SqlVal.int (f.«until».getD 0)] else [])
  (inner_joins, whr, values)

/-! ## The configuration model (src/models.py, class ClientConfig) -/

/-- ClientConfig: the fields that authorization reads. -/
structure ClientConfig where
  allowed_public_keys : List String := []
  blocked_public_keys : List String := []

/-- ClientConfig.is_author_allowed: block-list first, then the allow-list if
it is non-empty. -/
def is_author_allowed (c : ClientConfig) (p : String) : Bool :=
  if p ∈ c.blocked_public_keys then false
  else if c.allowed_public_keys.length = 0 then true
  else decide (p ∈ c.allowed_public_keys)

/-- The event carries a tag entry with the given name whose value is among
the allowed values. -/
def hasTagValue (tags : List (List String)) (tag_name : String)
    (allowed : List String) : Prop :=
  ∃ t ∈ tags, t[0]? = some tag_name ∧ ∃ v, t[1]? = some v ∧ v ∈ allowed

/-- Well-formed tag lists: every tag entry has a name and a value. -/
def wfTags (tags : List (List String)) : Prop := ∀ t ∈ tags, 2 ≤ t.length

/-- Number of bound-parameter placeholders in one SQL fragment. -/
def countQ (s : String) : Nat := s.data.count '?'

/-- Every field of a NostrFilter is empty or unset. -/
def allFieldsUnset (f : NostrFilter) : Prop :=
  f.subscription_id = none ∧ f.ids = [] ∧ f.authors = [] ∧ f.kinds = [] ∧
  f.e = [] ∧ f.p = [] ∧ f.since = none ∧ f.«until» = none ∧ f.limit = none

/-! ## Helper lemmas -/

theorem filterTagsFor_e (f : NostrFilter) : filterTagsFor f "e" = f.e := rfl

theorem filterTagsFor_p (f : NostrFilter) : filterTagsFor f "p" = f.p := by
  simp [filterTagsFor]

/-- With an empty constraint list the tag check passes without reading tags. -/
theorem tag_in_list_of_empty (f : NostrFilter) (tags : List (List String))
    (tag_name : String) (h : filterTagsFor f tag_name = []) :
    tag_in_list f tags tag_name = some true := by
  simp [tag_in_list, h]

/-- Well-formed tags never make the comprehension raise. -/
theorem event_tag_values_isSome (tags : List (List String)) (tag_name : String)
    (wf : wfTags tags) : ∃ vs, event_tag_values tags tag_name = some vs := by
  induction tags with
  | nil => exact ⟨[], rfl⟩
  | cons t rest ih =>
    have ht : 2 ≤ t.length := wf t (List.mem_cons_self t rest)
    have h0 : ∃ a, t[0]? = some a := by
      cases hg : t[0]? with
      | none => exact absurd (List.getElem?_eq_none_iff.mp hg) (by omega)
      | some a => exact ⟨a, rfl⟩
    have h1 : ∃ a, t[1]? = some a := by
      cases hg : t[1]? with
      | none => exact absurd (List.getElem?_eq_none_iff.mp hg) (by omega)
      | some a => exact ⟨a, rfl⟩
    obtain ⟨vs, hvs⟩ := ih fun u hu => wf u (List.mem_cons_of_mem t hu)
    obtain ⟨a, ha⟩ := h0
    obtain ⟨b, hb⟩ := h1
    by_cases he : a = tag_name
    · exact ⟨b :: vs, by simp [event_tag_values, ha, he, hb, hvs]⟩
    · exact ⟨vs, by simp [event_tag_values, ha, he, hvs]⟩

/-- Every value the comprehension collects comes from a matching tag entry. -/
theorem mem_of_event_tag_values {tags : List (List String)} {tag_name : String}
    {vs : List String} (h : event_tag_values tags tag_name = some vs) :
    ∀ v ∈ vs, ∃ t ∈ tags, t[0]? = some tag_name ∧ t[1]? = some v := by
  induction tags generalizing vs with
  | nil =>
    simp only [event_tag_values, Option.some.injEq] at h
    subst h
    intro v hv
    cases hv
  | cons t rest ih =>
    intro v hv
    simp only [event_tag_values] at h
    cases hg : t[0]? with
    | none => simp [hg] at h
    | some a =>
      rw [hg] at h
      simp only at h
      by_cases he : a = tag_name
      · rw [if_pos he] at h
        cases hg1 : t[1]? with
        | none => simp [hg1] at h
        | some b =>
          rw [hg1] at h
          cases hr : event_tag_values rest tag_name with
          | none => simp [hr] at h
          | some vs2 =>
            rw [hr] at h
            simp only [Option.some.injEq] at h
            subst h
            rcases List.mem_cons.mp hv with hvb | hvm
            · exact ⟨t, List.mem_cons_self t rest, by rw [hg, he], by rw [hg1, hvb]⟩
            · obtain ⟨u, hu, h0, h1⟩ := ih hr v hvm
              exact ⟨u, List.mem_cons_of_mem t hu, h0, h1⟩
      · rw [if_neg he] at h
        obtain ⟨u, hu, h0, h1⟩ := ih h v hv
        exact ⟨u, List.mem_cons_of_mem t hu, h0, h1⟩

/-- Conversely, the value of every matching tag entry is collected. -/
theorem event_tag_values_mem {tags : List (List String)} {tag_name : String}
    {vs : List String} (h : event_tag_values tags tag_name = some vs)
    {t : List String} (ht : t ∈ tags) (h0 : t[0]? = some tag_name)
    {v : String} (h1 : t[1]? = some v) : v ∈ vs := by
  induction tags generalizing vs with
  | nil => cases ht
  | cons u rest ih =>
    simp only [event_tag_values] at h
    cases hg : u[0]? with
    | none => simp [hg] at h
    | some a =>
      rw [hg] at h
      simp only at h
      by_cases he : a = tag_name
      · rw [if_pos he] at h
        cases hg1 : u[1]? with
        | none => simp [hg1] at h
        | some b =>
          rw [hg1] at h
          cases hr : event_tag_values rest tag_name with
          | none => simp [hr] at h
          | some vs2 =>
            rw [hr] at h
            simp only [Option.some.injEq] at h
            subst h
            rcases List.mem_cons.mp ht with rfl | hm
            · rw [h0] at hg
              rw [h1] at hg1
              simp at hg1
              exact List.mem_cons.mpr (Or.inl hg1)
            · exact List.mem_cons_of_mem b (ih hr hm)
      · rw [if_neg he] at h
        rcases List.mem_cons.mp ht with rfl | hm
        · rw [h0] at hg
          simp at hg
          exact absurd hg.symm he
        · exact ih h hm

/-- A passing tag check with a non-empty constraint list exhibits a matching
tag entry; no well-formedness assumption is needed for this direction. -/
theorem tag_in_list_true_elim {f : NostrFilter} {tags : List (List String)}
    {tag_name : String} (hne : filterTagsFor f tag_name ≠ [])
    (h : tag_in_list f tags tag_name = some true) :
    hasTagValue tags tag_name (filterTagsFor f tag_name) := by
  unfold tag_in_list at h
  rw [if_neg (by simpa [List.length_eq_zero] using hne)] at h
  cases hv : event_tag_values tags tag_name with
  | none => rw [hv] at h; cases h
  | some vals =>
    rw [hv] at h
    simp only at h
    by_cases hc : (vals.filter fun v => decide (v ∈ filterTagsFor f tag_name)).length = 0
    · rw [if_pos hc] at h; cases h
    · obtain ⟨v, hvf⟩ :=
        List.exists_mem_of_ne_nil (vals.filter fun v => decide (v ∈ filterTagsFor f tag_name))
          (fun hnil => hc (by rw [hnil]; rfl))
      have hmem := List.mem_filter.mp hvf
      obtain ⟨t, ht, h0, h1⟩ := mem_of_event_tag_values hv v hmem.1
      exact ⟨t, ht, h0, v, h1, of_decide_eq_true hmem.2⟩

/-- Under well-formed tags the tag check never raises. -/
theorem tag_in_list_wf_isSome {f : NostrFilter} {tags : List (List String)}
    {tag_name : String} (wf : wfTags tags) :
    (tag_in_list f tags tag_name).isSome = true := by
  by_cases hfe : filterTagsFor f tag_name = []
  · rw [tag_in_list_of_empty f tags tag_name hfe]; rfl
  · obtain ⟨vals, hv⟩ := event_tag_values_isSome tags tag_name wf
    unfold tag_in_list
    rw [if_neg (by simpa [List.length_eq_zero] using hfe), hv]
    simp only
    by_cases hc : (vals.filter fun v => decide (v ∈ filterTagsFor f tag_name)).length = 0
    · rw [if_pos hc]; rfl
    · rw [if_neg hc]; rfl

/-- Under well-formed tags the tag check is characterized by hasTagValue
(OR of the values within one tag name). -/
theorem tag_in_list_wf_true_iff {f : NostrFilter} {tags : List (List String)}
    {tag_name : String} (wf : wfTags tags) :
    tag_in_list f tags tag_name = some true ↔
      (filterTagsFor f tag_name = [] ∨
        hasTagValue tags tag_name (filterTagsFor f tag_name)) := by
  constructor
  · intro h
    by_cases hfe : filterTagsFor f tag_name = []
    · exact Or.inl hfe
    · exact Or.inr (tag_in_list_true_elim hfe h)
  · rintro (hfe | htv)
    · exact tag_in_list_of_empty f tags tag_name hfe
    · by_cases hfe : filterTagsFor f tag_name = []
      · exact tag_in_list_of_empty f tags tag_name hfe
      · obtain ⟨vals, hv⟩ := event_tag_values_isSome tags tag_name wf
        obtain ⟨t, ht, h0, v, h1, hvin⟩ := htv
        have hvv : v ∈ vals := event_tag_values_mem hv ht h0 h1
        have hvf : v ∈ vals.filter fun v => decide (v ∈ filterTagsFor f tag_name) :=
          List.mem_filter.mpr ⟨hvv, decide_eq_true hvin⟩
        have hc : (vals.filter fun v => decide (v ∈ filterTagsFor f tag_name)).length ≠ 0 := by
          intro hz
          rw [List.length_eq_zero.mp hz] at hvf
          cases hvf
        unfold tag_in_list
        rw [if_neg (by simpa [List.length_eq_zero] using hfe), hv]
        simp only
        rw [if_neg hc]

/-- A successful live match forces both tag checks to have returned true. -/
theorem matches_true_tags {f : NostrFilter} {ev : NostrEvent}
    (h : «matches» f ev = some true) :
    tag_in_list f ev.tags "e" = some true ∧ tag_in_list f ev.tags "p" = some true := by
  unfold «matches» at h
  split_ifs at h
  all_goals try cases h
  cases he : tag_in_list f ev.tags "e" with
  | none => rw [he] at h; cases h
  | some fe =>
    rw [he] at h
    cases hp : tag_in_list f ev.tags "p" with
    | none => rw [hp] at h; cases h
    | some fp =>
      rw [hp] at h
      simp only at h
      by_cases hb : fe = false ∨ fp = false
      · rw [if_pos hb] at h; cases h
      · push_neg at hb
        simp only [Bool.not_eq_false] at hb
        rw [hb.1, hb.2]
        exact ⟨rfl, rfl⟩

/-- Under well-formed tags live matching is total. -/
theorem matches_wf_isSome (f : NostrFilter) (ev : NostrEvent)
    (wf : wfTags ev.tags) : («matches» f ev).isSome = true := by
  unfold «matches»
  split_ifs <;> try rfl
  obtain ⟨fe, hee⟩ := Option.isSome_iff_exists.mp
    (@tag_in_list_wf_isSome f ev.tags "e" wf)
  obtain ⟨fp, hpp⟩ := Option.isSome_iff_exists.mp
    (@tag_in_list_wf_isSome f ev.tags "p" wf)
  simp only [hee, hpp]
  split_ifs <;> rfl

/-- Full characterization of a successful live match under well-formed tags:
the conjunction of the id/author/kind memberships, the time bounds exactly as
coded (since inclusive, until inclusive and only enforced when positive), and
the two tag constraints (empty list, or some entry with an allowed value). -/
theorem matches_true_iff (f : NostrFilter) (ev : NostrEvent)
    (wf : wfTags ev.tags) :
    «matches» f ev = some true ↔
      ((f.ids.length ≠ 0 → ev.id ∈ f.ids) ∧
       (f.authors.length ≠ 0 → ev.pubkey ∈ f.authors) ∧
       (f.kinds.length ≠ 0 → ev.kind ∈ f.kinds) ∧
       (optTruthy f.since = true → f.since.getD 0 ≤ ev.created_at) ∧
       (optTruthy f.«until» = true → 0 < f.«until».getD 0 →
         ev.created_at ≤ f.«until».getD 0) ∧
       (f.e = [] ∨ hasTagValue ev.tags "e" f.e) ∧
       (f.p = [] ∨ hasTagValue ev.tags "p" f.p)) := by
  have he := @tag_in_list_wf_true_iff f ev.tags "e" wf
  have hp := @tag_in_list_wf_true_iff f ev.tags "p" wf
  rw [filterTagsFor_e] at he
  rw [filterTagsFor_p] at hp
  unfold «matches»
  split_ifs with h1 h2 h3 h4 h5
  · exact iff_of_false (by simp)
      (by rintro ⟨c1, _, _, _, _, _, _⟩; exact h1.2 (c1 h1.1))
  · exact iff_of_false (by simp)
      (by rintro ⟨_, c2, _, _, _, _, _⟩; exact h2.2 (c2 h2.1))
  · exact iff_of_false (by simp)
      (by rintro ⟨_, _, c3, _, _, _, _⟩; exact h3.2 (c3 h3.1))
  · exact iff_of_false (by simp)
      (by rintro ⟨_, _, _, c4, _, _, _⟩; have := c4 h4.1; have := h4.2; omega)
  · exact iff_of_false (by simp)
      (by rintro ⟨_, _, _, _, c5, _, _⟩
          have := c5 h5.1 h5.2.1
          have := h5.2.2
          omega)
  · have c1 : f.ids.length ≠ 0 → ev.id ∈ f.ids := by
      intro hne; by_contra hm; exact h1 ⟨hne, hm⟩
    have c2 : f.authors.length ≠ 0 → ev.pubkey ∈ f.authors := by
      intro hne; by_contra hm; exact h2 ⟨hne, hm⟩
    have c3 : f.kinds.length ≠ 0 → ev.kind ∈ f.kinds := by
      intro hne; by_contra hm; exact h3 ⟨hne, hm⟩
    have c4 : optTruthy f.since = true → f.since.getD 0 ≤ ev.created_at := by
      intro ht; by_contra hlt; push_neg at hlt; exact h4 ⟨ht, hlt⟩
    have c5 : optTruthy f.«until» = true → 0 < f.«until».getD 0 →
        ev.created_at ≤ f.«until».getD 0 := by
      intro ht hpos; by_contra hlt; push_neg at hlt; exact h5 ⟨ht, hpos, hlt⟩
    obtain ⟨fe, hee⟩ := Option.isSome_iff_exists.mp
      (@tag_in_list_wf_isSome f ev.tags "e" wf)
    obtain ⟨fp, hpp⟩ := Option.isSome_iff_exists.mp
      (@tag_in_list_wf_isSome f ev.tags "p" wf)
    simp only [hee, hpp]
    constructor
    · intro h
      by_cases hb : fe = false ∨ fp = false
      · rw [if_pos hb] at h; cases h
      · push_neg at hb
        simp only [Bool.not_eq_false] at hb
        refine ⟨c1, c2, c3, c4, c5, ?_, ?_⟩
        · exact he.mp (by rw [hee, hb.1])
        · exact hp.mp (by rw [hpp, hb.2])
    · rintro ⟨_, _, _, _, _, de, dp⟩
      have hfe : fe = true := by
        have := he.mpr de
        rw [hee] at this
        exact (Option.some.injEq _ _).mp this
      have hfp : fp = true := by
        have := hp.mpr dp
        rw [hpp] at this
        exact (Option.some.injEq _ _).mp this
      rw [if_neg (by simp [hfe, hfp])]

/-- Whenever the until check fires, the match fails with an early false: the
checks before the tag section all return some false on failure. -/
theorem matches_until_exceeded (f : NostrFilter) (ev : NostrEvent)
    {u : Int} (hu : f.«until» = some u) (hpos : 0 < u)
    (hgt : u < ev.created_at) : «matches» f ev = some false := by
  unfold «matches»
  split_ifs with h1 h2 h3 h4 h5 <;> try rfl
  exact absurd ⟨by simp [optTruthy, hu]; omega, by simp [hu]; omega⟩ h5

theorem hexDigitChar_mem (n : Nat) : hexDigitChar n ∈ hexDigits := by
  unfold hexDigitChar List.getD
  cases hg : hexDigits.get? n with
  | none => exact (by decide : '0' ∈ hexDigits)
  | some c => simpa using List.get?_mem hg

theorem mem_byteHex_hexDigits {bs : List Nat} {c : Char}
    (h : c ∈ concatMapL byteHexChars bs) : c ∈ hexDigits := by
  induction bs with
  | nil => cases h
  | cons b rest ih =>
    rcases List.mem_append.mp h with hl | hr
    · rcases List.mem_cons.mp hl with rfl | hl2
      · exact hexDigitChar_mem _
      · rcases List.mem_cons.mp hl2 with rfl | hl3
        · exact hexDigitChar_mem _
        · cases hl3
    · exact ih hr

theorem length_concatMapL_byteHex (bs : List Nat) :
    (concatMapL byteHexChars bs).length = 2 * bs.length := by
  induction bs with
  | nil => rfl
  | cons b rest ih =>
    simp only [concatMapL, List.length_append, ih, byteHexChars]
    simp
    omega

theorem digestBytes_length (st : Hash8) : (digestBytes st).length = 32 := by
  simp [digestBytes, wordBytes]

theorem wordBytes_lt (w : Nat) : ∀ b ∈ wordBytes w, b < 256 := by
  intro b hb
  simp only [wordBytes, List.mem_cons, List.not_mem_nil, or_false] at hb
  rcases hb with rfl | rfl | rfl | rfl <;> exact Nat.mod_lt _ (by omega)

theorem digestBytes_lt (st : Hash8) : ∀ b ∈ digestBytes st, b < 256 := by
  simp only [digestBytes, List.forall_mem_append]
  exact ⟨⟨⟨⟨⟨⟨⟨wordBytes_lt _, wordBytes_lt _⟩, wordBytes_lt _⟩, wordBytes_lt _⟩,
    wordBytes_lt _⟩, wordBytes_lt _⟩, wordBytes_lt _⟩, wordBytes_lt _⟩

theorem sha256_length (msg : List Nat) : (sha256 msg).length = 32 :=
  digestBytes_length _

theorem sha256_lt (msg : List Nat) : ∀ b ∈ sha256 msg, b < 256 :=
  digestBytes_lt _

theorem event_id_length (ev : NostrEvent) : (event_id ev).length = 64 := by
  show (concatMapL byteHexChars (sha256 (utf8Bytes (serialize_json ev)))).length = 64
  rw [length_concatMapL_byteHex, sha256_length]

theorem event_id_hex (ev : NostrEvent) :
    ∀ c ∈ (event_id ev).data, c ∈ hexDigits := fun _ h => mem_byteHex_hexDigits h

theorem hexVal?_hexDigitChar {m : Nat} (hm : m < 16) :
    hexVal? (hexDigitChar m) = some m := by
  interval_cases m <;> decide

theorem hexDigitChar_ne_space (n : Nat) : hexDigitChar n ≠ ' ' := by
  have h := hexDigitChar_mem n
  intro he
  rw [he] at h
  exact absurd h (by decide)

/-- Round trip: bytes.fromhex of a hexdigest recovers the digest bytes. -/
theorem fromHex_bytesToHex {bs : List Nat} (hlt : ∀ b ∈ bs, b < 256) :
    bytes_fromhex (bytesToHex bs) = some bs := by
  show fromHexAux (concatMapL byteHexChars bs) = some bs
  induction bs with
  | nil => rfl
  | cons b rest ih =>
    have hb : b < 256 := hlt b (List.mem_cons_self b rest)
    have hhi : b / 16 % 16 < 16 := Nat.mod_lt _ (by omega)
    have hlo : b % 16 < 16 := Nat.mod_lt _ (by omega)
    have ihr := ih fun x hx => hlt x (List.mem_cons_of_mem b hx)
    show fromHexAux (hexDigitChar (b / 16 % 16) :: hexDigitChar (b % 16) ::
      concatMapL byteHexChars rest) = some (b :: rest)
    have hval : 16 * (b / 16 % 16) + b % 16 = b := by omega
    simp only [fromHexAux, if_neg (hexDigitChar_ne_space _), hexVal?_hexDigitChar hhi,
      hexVal?_hexDigitChar hlo, ihr, hval]

/-- The recomputed id always parses back to the digest bytes, so the
fromhex call on event_id never raises. -/
theorem bytes_fromhex_event_id (ev : NostrEvent) :
    bytes_fromhex (event_id ev) = some (sha256 (utf8Bytes (serialize_json ev))) :=
  fromHex_bytesToHex (sha256_lt _)

theorem countQ_append (a b : String) : countQ (a ++ b) = countQ a + countQ b := by
  unfold countQ
  rw [String.data_append, List.count_append]

theorem countQ_qmarks : ∀ n, countQ (qmarks n) = n
  | 0 => rfl
  | 1 => rfl
  | n + 2 => by
    rw [qmarks, countQ_append, countQ_qmarks (n + 1)]
    have hc : countQ ",?" = 1 := by decide
    omega

theorem countQ_clause_e (n : Nat) :
    countQ (" (e_tags.value in (" ++ qmarks n ++ ") AND e_tags.name = \x27e\x27)") = n := by
  rw [countQ_append, countQ_append, countQ_qmarks]
  have ha : countQ " (e_tags.value in (" = 0 := by decide
  have hb : countQ ") AND e_tags.name = \x27e\x27)" = 0 := by decide
  omega

theorem countQ_clause_p (n : Nat) :
    countQ (" p_tags.value in (" ++ qmarks n ++ ") AND p_tags.name = \x27p\x27") = n := by
  rw [countQ_append, countQ_append, countQ_qmarks]
  have ha : countQ " p_tags.value in (" = 0 := by decide
  have hb : countQ ") AND p_tags.name = \x27p\x27" = 0 := by decide
  omega

theorem countQ_clause_ids (n : Nat) : countQ ("id IN (" ++ qmarks n ++ ")") = n := by
  rw [countQ_append, countQ_append, countQ_qmarks]
  have ha : countQ "id IN (" = 0 := by decide
  have hb : countQ ")" = 0 := by decide
  omega

theorem countQ_clause_authors (n : Nat) : countQ ("pubkey IN (" ++ qmarks n ++ ")") = n := by
  rw [countQ_append, countQ_append, countQ_qmarks]
  have ha : countQ "pubkey IN (" = 0 := by decide
  have hb : countQ ")" = 0 := by decide
  omega

theorem countQ_clause_kinds (n : Nat) : countQ ("kind IN (" ++ qmarks n ++ ")") = n := by
  rw [countQ_append, countQ_append, countQ_qmarks]
  have ha : countQ "kind IN (" = 0 := by decide
  have hb : countQ ")" = 0 := by decide
  omega

theorem mapCountSum_ite (c : Prop) [Decidable c] (s : String) :
    ((if c then [s] else []).map countQ).sum = if c then countQ s else 0 := by
  split_ifs <;> simp

theorem length_ite {α : Type} (c : Prop) [Decidable c] (l : List α) :
    (if c then l else []).length = if c then l.length else 0 := by
  split_ifs <;> simp

/-! ## Claim theorems -/

/-- C3: live matching enforces tag constraints per tag name independently: a
non-empty #e list requires some event tag entry named e with a value in the
list (and likewise for #p), an empty constraint list imposes no constraint,
and with values OR-ed within one tag name and the two names AND-ed. -/
theorem c3_tag_constraints (f : NostrFilter) (ev : NostrEvent) :
    («matches» f ev = some true → f.e ≠ [] → hasTagValue ev.tags "e" f.e) ∧
    («matches» f ev = some true → f.p ≠ [] → hasTagValue ev.tags "p" f.p) ∧
    (f.e = [] → tag_in_list f ev.tags "e" = some true) ∧
    (f.p = [] → tag_in_list f ev.tags "p" = some true) ∧
    (wfTags ev.tags → f.ids = [] → f.authors = [] → f.kinds = [] →
      f.since = none → f.«until» = none →
      («matches» f ev = some true ↔
        (f.e = [] ∨ hasTagValue ev.tags "e" f.e) ∧
        (f.p = [] ∨ hasTagValue ev.tags "p" f.p))) := by
  refine ⟨?_, ?_, ?_, ?_, ?_⟩
  · intro h hne
    have := @tag_in_list_true_elim f ev.tags "e"
      (by rw [filterTagsFor_e]; exact hne) (matches_true_tags h).1
    rwa [filterTagsFor_e] at this
  · intro h hne
    have := @tag_in_list_true_elim f ev.tags "p"
      (by rw [filterTagsFor_p]; exact hne) (matches_true_tags h).2
    rwa [filterTagsFor_p] at this
  · intro he
    exact tag_in_list_of_empty f ev.tags "e" (by rw [filterTagsFor_e]; exact he)
  · intro hp
    exact tag_in_list_of_empty f ev.tags "p" (by rw [filterTagsFor_p]; exact hp)
  · intro wf hids hauthors hkinds hsince huntil
    rw [matches_true_iff f ev wf]
    simp [hids, hauthors, hkinds, hsince, huntil, optTruthy]

theorem c3_witness :
    «matches» { e := ["xyz"] }
      { id := "", pubkey := "", created_at := 5, kind := 1, tags := [["e", "xyz"]], sig := "" } = some true ∧
    hasTagValue [["e", "xyz"]] "e" ["xyz"] := by
  constructor
  · rfl
  · exact (c3_tag_constraints { e := ["xyz"] }
      { id := "", pubkey := "", created_at := 5, kind := 1, tags := [["e", "xyz"]], sig := "" }).1
      (by rfl) (by decide)

/-- C4 counterexample: the claim says an event whose created_at equals a
positive until does not match under live matching; in the code the until
check only rejects created_at strictly greater than until, so the event with
created_at = until = 10 matches. -/
theorem c4_counterexample :
    (0 : Int) < 10 ∧
    «matches» { «until» := some 10 }
      { id := "", pubkey := "", created_at := 10, kind := 0, tags := [], sig := "" } = some true := by
  exact ⟨by decide, rfl⟩

/-- C4 (amended): in live matching a positive until is an inclusive upper
bound: the event is rejected exactly when created_at exceeds until, and an
event with created_at equal to until matches; since is an inclusive lower
bound; the compiled query instead constrains created_at >= since and
created_at < until (exclusive). -/
theorem c4_time_bounds (f : NostrFilter) (ev : NostrEvent) (u s : Int)
    (r : String) :
    (f.«until» = some u → 0 < u → u < ev.created_at → «matches» f ev = some false) ∧
    (f.ids = [] → f.authors = [] → f.kinds = [] → f.e = [] → f.p = [] →
      f.since = none → f.«until» = some u → 0 < u →
      («matches» f ev = some true ↔ ev.created_at ≤ u)) ∧
    (f.ids = [] → f.authors = [] → f.kinds = [] → f.e = [] → f.p = [] →
      f.since = some s → s ≠ 0 → f.«until» = none →
      («matches» f ev = some true ↔ s ≤ ev.created_at)) ∧
    (optTruthy f.since = true → "created_at >= ?" ∈ (to_sql_components f r).2.1) ∧
    (optTruthy f.«until» = true → "created_at < ?" ∈ (to_sql_components f r).2.1) := by
  refine ⟨?_, ?_, ?_, ?_, ?_⟩
  · intro hu hpos hgt
    exact matches_until_exceeded f ev hu hpos hgt
  · intro hids hauthors hkinds he hp hsince hu hpos
    have hte := tag_in_list_of_empty f ev.tags "e" (by rw [filterTagsFor_e]; exact he)
    have htp := tag_in_list_of_empty f ev.tags "p" (by rw [filterTagsFor_p]; exact hp)
    unfold «matches»
    rw [hids, hauthors, hkinds, hsince, hu]
    by_cases hlt : u < ev.created_at
    · simp [optTruthy, hte, htp, hlt]
      all_goals omega
    · simp [optTruthy, hte, htp, hlt]
      all_goals omega
  · intro hids hauthors hkinds he hp hsince hsnz hun
    have hte := tag_in_list_of_empty f ev.tags "e" (by rw [filterTagsFor_e]; exact he)
    have htp := tag_in_list_of_empty f ev.tags "p" (by rw [filterTagsFor_p]; exact hp)
    unfold «matches»
    rw [hids, hauthors, hkinds, hsince, hun]
    by_cases hlt : ev.created_at < s
    · simp [optTruthy, hte, htp, hlt, hsnz]
    · simp [optTruthy, hte, htp, hlt, hsnz]
      all_goals omega
  · intro hs
    simp [to_sql_components, hs]
  · intro hu
    simp [to_sql_components, hu]

theorem c4_witness :
    «matches» { «until» := some 10 }
      { id := "", pubkey := "", created_at := 11, kind := 0, tags := [], sig := "" } = some false :=
  (c4_time_bounds { «until» := some 10 }
    { id := "", pubkey := "", created_at := 11, kind := 0, tags := [], sig := "" }
    10 0 "r").1 rfl (by decide) (by decide)

/-- C5: the all-empty filter (ids, authors, kinds, #e, #p empty; since and
until unset) matches every event. -/
theorem c5_empty_filter_matches (f : NostrFilter) (ev : NostrEvent)
    (hids : f.ids = []) (hauthors : f.authors = []) (hkinds : f.kinds = [])
    (he : f.e = []) (hp : f.p = []) (hsince : f.since = none)
    (huntil : f.«until» = none) : «matches» f ev = some true := by
  have hte := tag_in_list_of_empty f ev.tags "e" (by rw [filterTagsFor_e]; exact he)
  have htp := tag_in_list_of_empty f ev.tags "p" (by rw [filterTagsFor_p]; exact hp)
  unfold «matches»
  rw [hids, hauthors, hkinds, hsince, huntil]
  simp [optTruthy, hte, htp]

theorem c5_witness :
    «matches» ({} : NostrFilter)
      { id := "x", pubkey := "y", created_at := -3, kind := 7, tags := [["e"]], sig := "s" } = some true :=
  c5_empty_filter_matches {}
    { id := "x", pubkey := "y", created_at := -3, kind := 7, tags := [["e"]], sig := "s" }
    rfl rfl rfl rfl rfl rfl rfl

/-- C6: the block-list is checked first and always denies; with no block the
empty allow-list admits everyone, and a non-empty allow-list admits exactly
its members. -/
theorem c6_author_allowed (c : ClientConfig) (p : String) :
    (p ∈ c.blocked_public_keys → is_author_allowed c p = false) ∧
    (p ∉ c.blocked_public_keys → c.allowed_public_keys = [] →
      is_author_allowed c p = true) ∧
    (p ∉ c.blocked_public_keys → c.allowed_public_keys ≠ [] →
      (is_author_allowed c p = true ↔ p ∈ c.allowed_public_keys)) := by
  refine ⟨?_, ?_, ?_⟩
  · intro hb
    simp [is_author_allowed, hb]
  · intro hb ha
    simp [is_author_allowed, hb, ha]
  · intro hb ha
    simp [is_author_allowed, hb, List.length_eq_zero, ha]

theorem c6_witness :
    is_author_allowed { allowed_public_keys := ["k"], blocked_public_keys := ["k"] } "k" = false :=
  (c6_author_allowed { allowed_public_keys := ["k"], blocked_public_keys := ["k"] } "k").1
    (by decide)

/-- C7 counterexample: the claim says the limit becomes the configured
maximum whenever the prior limit was non-positive, and equals
min(requested, max); with prior limit -5 and maximum 10 the code keeps -5
(only None and 0 are falsy in Python), and with prior limit 0 the code sets
10 which is not min(0, 10). -/
theorem c7_counterexample :
    (enforce_limit { limit := some (-5) } 10).limit = some (-5) ∧
    (some (-5) : Option Int) ≠ some 10 ∧ (-5 : Int) ≤ 0 ∧
    (enforce_limit { limit := some 0 } 10).limit = some 10 ∧
    (10 : Int) ≠ min 0 10 := by
  refine ⟨rfl, by decide, by decide, rfl, by decide⟩

/-- C7 (amended): enforce_limit(m) sets the limit to m exactly when the prior
limit was absent, zero, or greater than m; any other prior limit — including
a negative one — is kept unchanged. -/
theorem c7_enforce_limit (f : NostrFilter) (m : Int) (_hm : 0 < m) :
    ((f.limit = none ∨ f.limit = some 0 ∨ (∃ l, f.limit = some l ∧ m < l)) →
      (enforce_limit f m).limit = some m) ∧
    (∀ l, f.limit = some l → l ≠ 0 → l ≤ m → (enforce_limit f m).limit = some l) := by
  constructor
  · rintro (hl | hl | ⟨l, hl, hgt⟩)
    · simp [enforce_limit, hl, optTruthy]
    · simp [enforce_limit, hl, optTruthy]
    · have hcond : optTruthy f.limit = false ∨ f.limit.getD 0 > m :=
        Or.inr (by rw [hl]; simpa using hgt)
      rw [enforce_limit, if_pos hcond]
  · intro l hl hnz hle
    rw [enforce_limit, if_neg]
    · rw [hl]
    · rw [hl]
      simp [optTruthy, hnz]
      omega

theorem c7_witness :
    0 < (10 : Int) ∧ (enforce_limit { limit := some 2000 } 10).limit = some 10 :=
  ⟨by decide,
    (c7_enforce_limit { limit := some 2000 } 10 (by decide)).1
      (Or.inr (Or.inr ⟨2000, rfl, by decide⟩))⟩

/-- C9 counterexample: the claim says is_empty is true only when every field
is empty or unset, but is_empty never looks at limit (nor subscription_id):
a filter whose only set field is limit is still reported empty. -/
theorem c9_counterexample :
    is_empty { limit := some 5 } = true ∧ ¬allFieldsUnset { limit := some 5 } := by
  constructor
  · rfl
  · intro h
    cases h.2.2.2.2.2.2.2.2

/-- C9 (amended): is_empty is true iff ids, authors, kinds, #e and #p are
empty and since and until are Python-falsy (unset or zero); limit and
subscription_id are not examined. -/
theorem c9_is_empty (f : NostrFilter) :
    is_empty f = true ↔
      (f.ids = [] ∧ f.authors = [] ∧ f.kinds = [] ∧ f.e = [] ∧ f.p = [] ∧
       (f.since = none ∨ f.since = some 0) ∧
       (f.«until» = none ∨ f.«until» = some 0)) := by
  unfold is_empty
  simp [List.length_eq_zero, optTruthy]
  cases f.since <;> cases f.«until» <;> simp <;> tauto

/-- C10: with every tag entry of length at least two live matching never
indexes out of bounds; without that precondition the failing branch is
reachable: the filter with #e = ["xyz"] on an event whose tags are [["e"]]
evaluates index 1 of a one-element tag entry, an IndexError (none). -/
theorem c10_tag_indexing_safety :
    (∀ (f : NostrFilter) (ev : NostrEvent), wfTags ev.tags →
      («matches» f ev).isSome = true) ∧
    «matches» { e := ["xyz"] }
      { id := "", pubkey := "", created_at := 0, kind := 0, tags := [["e"]], sig := "" } = none :=
  ⟨fun f ev wf => matches_wf_isSome f ev wf, rfl⟩

theorem c10_witness :
    wfTags [["e", "v"], ["p", "w"]] ∧
    («matches» { e := ["q"] }
      { id := "", pubkey := "", created_at := 0, kind := 0, tags := [["e", "v"], ["p", "w"]], sig := "" }).isSome = true :=
  ⟨by unfold wfTags; decide,
    c10_tag_indexing_safety.1 { e := ["q"] }
      { id := "", pubkey := "", created_at := 0, kind := 0, tags := [["e", "v"], ["p", "w"]], sig := "" }
      (by unfold wfTags; decide)⟩

/-- C8: query compilation never interpolates untrusted values — the join and
where strings are functions of field presence and list lengths alone, every
value (relay_id included) goes to the bound-parameter list, the number of
placeholders in the strings equals the number of bound values, and the
soft-delete and relay-scope predicates are always present. -/
theorem c8_sql_parameterization (f1 f2 : NostrFilter) (r1 r2 : String)
    (he : f1.e.length = f2.e.length) (hp : f1.p.length = f2.p.length)
    (hids : f1.ids.length = f2.ids.length)
    (hauthors : f1.authors.length = f2.authors.length)
    (hkinds : f1.kinds.length = f2.kinds.length)
    (hsince : optTruthy f1.since = optTruthy f2.since)
    (huntil : optTruthy f1.«until» = optTruthy f2.«until») :
    ((to_sql_components f1 r1).1 = (to_sql_components f2 r2).1 ∧
     (to_sql_components f1 r1).2.1 = (to_sql_components f2 r2).2.1) ∧
    (((to_sql_components f1 r1).1 ++ (to_sql_components f1 r1).2.1).map countQ).sum
      = (to_sql_components f1 r1).2.2.length ∧
    "deleted=false" ∈ (to_sql_components f1 r1).2.1 ∧
    "nostrrelay.events.relay_id = ?" ∈ (to_sql_components f1 r1).2.1 := by
  refine ⟨⟨?_, ?_⟩, ?_, ?_, ?_⟩
  · simp only [to_sql_components]
    rw [he, hp]
  · simp only [to_sql_components]
    rw [he, hp, hids, hauthors, hkinds, hsince, huntil]
  · simp only [to_sql_components, List.map_append, List.sum_append, List.length_append,
      mapCountSum_ite, length_ite, countQ_clause_e, countQ_clause_p, countQ_clause_ids,
      countQ_clause_authors, countQ_clause_kinds, List.length_map]
    have h1 : countQ "deleted=false" = 0 := by decide
    have h2 : countQ "nostrrelay.events.relay_id = ?" = 1 := by decide
    have h3 : countQ "created_at >= ?" = 1 := by decide
    have h4 : countQ "created_at < ?" = 1 := by decide
    have h5 : countQ
      "INNER JOIN nostrrelay.event_tags e_tags ON nostrrelay.events.id = e_tags.event_id" = 0 := by
      decide
    have h6 : countQ
      "INNER JOIN nostrrelay.event_tags p_tags ON nostrrelay.events.id = p_tags.event_id" = 0 := by
      decide
    simp only [List.map_cons, List.map_nil, List.sum_cons, List.sum_nil, List.length_cons,
      List.length_nil, h1, h2, h3, h4, h5, h6]
    split_ifs <;> omega
  · simp [to_sql_components]
  · simp [to_sql_components]

theorem c8_witness :
    (to_sql_components { e := ["a"] } "x").2.1 = (to_sql_components { e := ["b"] } "y").2.1 :=
  ((c8_sql_parameterization { e := ["a"] } { e := ["b"] } "x" "y"
    rfl rfl rfl rfl rfl rfl rfl).1).2

/-- C1: the identity hash is the lowercase 64-character hex SHA-256 digest of
the UTF-8 compact JSON array [0, pubkey, created_at, kind, tags, content],
and it is a pure function of exactly those five fields: two events agreeing
on them (whatever their id and sig) have equal identity hashes. -/
theorem c1_event_id (e1 e2 : NostrEvent)
    (hpk : e1.pubkey = e2.pubkey) (hca : e1.created_at = e2.created_at)
    (hk : e1.kind = e2.kind) (ht : e1.tags = e2.tags)
    (hc : e1.content = e2.content) :
    event_id e1 = event_id e2 ∧
    event_id e1 = sha256Hex (utf8Bytes (serialize_json e1)) ∧
    (event_id e1).length = 64 ∧
    ∀ c ∈ (event_id e1).data, c ∈ hexDigits := by
  refine ⟨?_, rfl, event_id_length e1, event_id_hex e1⟩
  unfold event_id serialize_json
  rw [hpk, hca, hk, ht, hc]

theorem c1_witness :
    ({ id := "a", pubkey := "pk", created_at := 7, kind := 1, tags := [["e", "x"]], content := "hello", sig := "s1" } : NostrEvent).pubkey =
      ({ id := "b", pubkey := "pk", created_at := 7, kind := 1, tags := [["e", "x"]], content := "hello", sig := "s2" } : NostrEvent).pubkey ∧
    event_id { id := "a", pubkey := "pk", created_at := 7, kind := 1, tags := [["e", "x"]], content := "hello", sig := "s1" } =
      event_id { id := "b", pubkey := "pk", created_at := 7, kind := 1, tags := [["e", "x"]], content := "hello", sig := "s2" } :=
  ⟨rfl,
    (c1_event_id
      { id := "a", pubkey := "pk", created_at := 7, kind := 1, tags := [["e", "x"]], content := "hello", sig := "s1" }
      { id := "b", pubkey := "pk", created_at := 7, kind := 1, tags := [["e", "x"]], content := "hello", sig := "s2" }
      rfl rfl rfl rfl rfl).1⟩

/-- C2: check_signature fails exactly when the stored id differs from the
recomputed hash, the pubkey does not parse, or the schnorr verification over
the identity-hash bytes does not accept (a non-hex sig raises before the
schnorr check); the id comparison is decided first, the pubkey parse second
and the signature verification last, for any parse and verify primitives. -/
theorem c2_check_signature {PK : Type} (parsePubKey : String → Option PK)
    (schnorrVerify : PK → List Nat → List Nat → Bool) (ev : NostrEvent) :
    (ev.id ≠ event_id ev →
      check_signature parsePubKey schnorrVerify ev = .error .invalidId) ∧
    (ev.id = event_id ev → parsePubKey ("02" ++ ev.pubkey) = none →
      check_signature parsePubKey schnorrVerify ev = .error .invalidPubkey) ∧
    (∀ pk sigBytes, ev.id = event_id ev →
      parsePubKey ("02" ++ ev.pubkey) = some pk →
      bytes_fromhex ev.sig = some sigBytes →
      schnorrVerify pk (sha256 (utf8Bytes (serialize_json ev))) sigBytes = false →
      check_signature parsePubKey schnorrVerify ev = .error .invalidSignature) ∧
    (check_signature parsePubKey schnorrVerify ev = .ok () ↔
      ev.id = event_id ev ∧
      ∃ pk, parsePubKey ("02" ++ ev.pubkey) = some pk ∧
      ∃ sigBytes, bytes_fromhex ev.sig = some sigBytes ∧
        schnorrVerify pk (sha256 (utf8Bytes (serialize_json ev))) sigBytes = true) := by
  have hfe := bytes_fromhex_event_id ev
  refine ⟨?_, ?_, ?_, ?_⟩
  · intro hne
    simp only [check_signature, if_pos hne]
  · intro heq hpn
    simp only [check_signature, if_neg (not_not_intro heq), hpn]
  · intro pk sigBytes heq hps hfs hv
    simp only [check_signature, if_neg (not_not_intro heq), hps, hfe, hfs, hv]
    rfl
  · constructor
    · intro h
      simp only [check_signature] at h
      by_cases hid : ev.id ≠ event_id ev
      · rw [if_pos hid] at h
        cases h
      · rw [if_neg hid] at h
        push_neg at hid
        refine ⟨hid, ?_⟩
        cases hps : parsePubKey ("02" ++ ev.pubkey) with
        | none => rw [hps] at h; cases h
        | some pk =>
          rw [hps, hfe] at h
          simp only [] at h
          cases hfs : bytes_fromhex ev.sig with
          | none => rw [hfs] at h; cases h
          | some sigBytes =>
            rw [hfs] at h
            simp only [] at h
            refine ⟨pk, rfl, sigBytes, rfl, ?_⟩
            by_cases hv : schnorrVerify pk (sha256 (utf8Bytes (serialize_json ev))) sigBytes = true
            · exact hv
            · rw [if_neg hv] at h
              cases h
    · rintro ⟨hid, pk, hps, sigBytes, hfs, hv⟩
      simp only [check_signature, if_neg (not_not_intro hid), hps, hfe, hfs, hv]
      rfl

theorem c2_witness :
    check_signature (fun _ : String => (none : Option Unit)) (fun _ _ _ => true)
      { id := "x", pubkey := "", created_at := 0, kind := 0, tags := [], content := "", sig := "" } =
      .error .invalidId :=
  (c2_check_signature (fun _ : String => (none : Option Unit)) (fun _ _ _ => true)
    { id := "x", pubkey := "", created_at := 0, kind := 0, tags := [], content := "", sig := "" }).1
    (fun h => by
      have h64 := event_id_length
        { id := "x", pubkey := "", created_at := 0, kind := 0, tags := [], content := "", sig := "" }
      rw [← h] at h64
      exact absurd h64 (by decide))

